import Mathlib

/-!
Verification development for the foodie-reel video server.

The file gives a shallow embedding of the two algorithmic components of the
repository and proves properties about it:

* `VideoStreamService.streamVideo` (range parsing, clamping, 416 handling and
  upstream header relay), embedded as `streamVideoRangeBranch` and
  `relayRangeResponse`;
* the redirect-following helper `fetchUpstream` of
  `VideoStreamService.proxyImageKitVideo`, embedded as `fetchFollow`;
* the catch-branch fallback logic of `proxyImageKitVideo`, embedded as
  `proxyCatchHandler`;
* the `GET /local-videos/:filename` handler's path confinement check,
  embedded as `securityCheckPasses` over a model of node's `path.join`;
* the in-memory `SimpleQueue` (`add`, the worker loop of `processJobs`,
  retry bookkeeping and terminal-job retention), embedded as `addJob`,
  `stepQueue`, `runLoop` and `cleanup`.

Machine integers of the JavaScript source are modelled as `Int`/`Nat`
(the quantities involved - byte offsets, priorities, attempt counters -
stay far below any floating point precision boundary), fallible paths are
explicit constructors, and the asynchronous worker loop is modelled as a
sequential step function, which is faithful because each queue instance
runs a single worker loop at a time.
-/

namespace FoodieReel

/-! ## Character-list utilities shared by the path and error-message models -/

/-- Boolean prefix test on character lists (`a` is a prefix of `b`). -/
def leadsWith : List Char → List Char → Bool
  | [], _ => true
  | _ :: _, [] => false
  | a :: as, b :: bs => a = b && leadsWith as bs

/-- Boolean substring test: `pat` occurs contiguously inside the second list. -/
def containsSeq (pat : List Char) : List Char → Bool
  | [] => leadsWith pat []
  | c :: cs => leadsWith pat (c :: cs) || containsSeq pat cs

/-- Split a character list at `'/'`, mirroring JavaScript `String.split('/')`
(so `"/a".split('/') = ["", "a"]` and `"a/".split('/') = ["a", ""]`). -/
def splitOnSlash : List Char → List (List Char)
  | [] => [[]]
  | c :: cs =>
    if c = '/' then [] :: splitOnSlash cs
    else
      match splitOnSlash cs with
      | [] => [[c]]
      | r :: rs => (c :: r) :: rs

/-! ## streamVideo: range parsing and clamping (part_009 lines 184-228)

`VideoStreamService.streamVideo` parses `Range: bytes=start-end`, answers 416
when the parsed start is `NaN` or at least the probed content length
(`res.setHeader('Content-Range', 'bytes */<len>'); res.status(416).end()`,
returning before any upstream GET is created and with an empty body), and
otherwise clamps the end and forwards `Range: bytes=<start>-<end>` upstream.
A `none` start models `parseInt` returning `NaN`; a `none` requested end
models an omitted end position. -/

/-- Fixed chunk size of `streamVideo` (`const chunkSize = 1000000`). -/
def chunkSize : Int := 1000000

/-- Initial end value (source line 194):
`let end = endStr ? parseInt(endStr, 10) : Math.min(start + chunkSize - 1, contentLength - 1)`. -/
def effEndReq (s : Int) (endReq : Option Int) (contentLength : Int) : Int :=
  match endReq with
  | some e => e
  | none => min (s + chunkSize - 1) (contentLength - 1)

/-- Outcome of the range branch of `streamVideo`: either a 416 answer carrying
the `Content-Range` header value and no upstream request, or an upstream GET
carrying the given `Range` header value. -/
inductive RangeBranch where
  | notSatisfiable (contentRange : String)
  | upstreamGet (rangeHeader : String)
deriving DecidableEq, Repr

/-- Range branch of `streamVideo` (source lines 184-210). `start = none`
models `Number.isNaN(start)`. -/
def streamVideoRangeBranch (start : Option Int) (endReq : Option Int)
    (contentLength : Int) : RangeBranch :=
  match start with
  | none => RangeBranch.notSatisfiable ("bytes */" ++ toString contentLength)
  | some s =>
    if s ≥ contentLength then
      RangeBranch.notSatisfiable ("bytes */" ++ toString contentLength)
    else
      RangeBranch.upstreamGet
        ("bytes=" ++ toString s ++ "-" ++
          toString (min (effEndReq s endReq contentLength) (contentLength - 1)))

/-- Header fields of the upstream response to the proxied range GET.
`statusCode = 0` models an absent `statusCode` (JavaScript falsy). -/
structure UpstreamHead where
  statusCode : Nat
  contentType : Option String
  contentLength : Option String
  contentRange : Option String
  acceptRanges : Option String
deriving DecidableEq, Repr

/-- Status and headers written to the client in the range branch
(source lines 212-220): `Accept-Ranges` is the constant `'bytes'`,
`Content-Type` falls back to the probed content type, `Content-Range` and
`Content-Length` are copied when present, and the status falls back to 206. -/
structure ClientHead where
  status : Nat
  contentType : String
  contentRange : Option String
  contentLength : Option String
  acceptRanges : String
deriving DecidableEq, Repr

/-- Response relay of the range branch (source lines 213-220). -/
def relayRangeResponse (up : UpstreamHead) (probedType : String) : ClientHead :=
  { status := if up.statusCode = 0 then 206 else up.statusCode
  , contentType := up.contentType.getD probedType
  , contentRange := up.contentRange
  , contentLength := up.contentLength
  , acceptRanges := "bytes" }

/-! ## fetchUpstream: redirect following (part_009 lines 316-354) -/

/-- HTTP method of an upstream request. -/
inductive HttpMethod where
  | GET
  | HEAD
deriving DecidableEq, Repr

/-- An upstream request: target URL, method and optional `Range` header. -/
structure UpstreamReq where
  url : String
  method : HttpMethod
  range : Option String
deriving DecidableEq, Repr

/-- An upstream response as seen by the redirect logic: a status code and an
optional `Location` header (already resolved to an absolute URL). -/
structure RedirectResp where
  statusCode : Nat
  location : Option String
deriving DecidableEq, Repr

/-- Redirect status test (`[301,302,303,307,308].includes(sc)`). -/
def isRedirectCode (sc : Nat) : Bool :=
  sc = 301 || sc = 302 || sc = 303 || sc = 307 || sc = 308

/-- The follow-up request the source *computes* on a redirect (the locals
`nextMethod` and `nextHeaders` of lines 333-335: a 303 would force method
`GET` and delete the `Range` header). These locals are dead code: the
recursive call `go(next, left - 1, retryCount)` passes only the URL, and the
next request's options are rebuilt from `fetchUpstream`'s original closure
parameters `method` and `headers` (line 323-324), so this computed value is
never used by the fetch. -/
def nextRequest (req : UpstreamReq) (sc : Nat) (loc : String) : UpstreamReq :=
  { url := loc
  , method := if sc = 303 then HttpMethod.GET else req.method
  , range := if sc = 303 then none else req.range }

/-- The redirect loop `go` of `fetchUpstream` (source lines 318-353), with the
origin modelled as a function from requests to responses (connection errors
and hence the retry path do not occur in this total model). `go` varies only
the current URL: on every hop the request options are rebuilt from
`fetchUpstream`'s original `method` and `headers` closure parameters
(lines 323-324), so every request of the chain carries the original method
and `Range` header - the 303 rewrite computed into `nextMethod` and
`nextHeaders` is discarded. On a redirect status with a `Location` header
and `left > 0` the loop follows the redirect with a decremented budget;
otherwise it resolves the response as is - in particular a redirect response
arriving with `left = 0` is resolved, not rejected. -/
def fetchFollow (origin : UpstreamReq → RedirectResp) (method : HttpMethod)
    (range : Option String) : String → Nat → RedirectResp
  | url, 0 => origin { url := url, method := method, range := range }
  | url, left + 1 =>
    match (origin { url := url, method := method, range := range }).location with
    | some loc =>
      if isRedirectCode (origin { url := url, method := method, range := range }).statusCode then
        fetchFollow origin method range loc left
      else origin { url := url, method := method, range := range }
    | none => origin { url := url, method := method, range := range }

/-- Client status produced by `proxyImageKitVideo` after the fetch resolves
(source lines 363-367 and 379): `const status = upstream.statusCode || 502` is
relayed both in the non-200/206 error branch (`res.status(status).json`) and
in the streaming branch (`res.writeHead(status, ...)`). -/
def clientStatusAfterFetch (r : RedirectResp) : Nat :=
  if r.statusCode = 0 then 502 else r.statusCode

/-- An origin that answers every request with `302` and a `Location` header,
producing an unbounded redirect chain. -/
def origin302 : UpstreamReq → RedirectResp :=
  fun _ => { statusCode := 302, location := some "https://ik.imagekit.io/video.mp4" }

/-- An origin that redirects its first URL with a 303 and, at any other URL,
observes the request it actually receives: it answers 200 to a bare GET
(no `Range` header) and 206 to any request still carrying a non-GET method
or a `Range` header. It thereby detects whether the 303 rewrite was applied
to the follow-up request. -/
def originProbe : UpstreamReq → RedirectResp := fun r =>
  if r.url = "https://ik.imagekit.io/a.mp4" then
    { statusCode := 303, location := some "https://ik.imagekit.io/b.mp4" }
  else if r.method = HttpMethod.GET ∧ r.range = none then
    { statusCode := 200, location := none }
  else
    { statusCode := 206, location := none }

/-! ## proxyImageKitVideo: catch-branch fallback (part_009 lines 388-422) -/

/-- Error codes treated as transient network errors by the catch branch
(the regex `/(ENETUNREACH|ENOTFOUND|ECONNREFUSED|ETIMEDOUT|EAI_AGAIN)/i`). -/
def networkErrorCodes : List String :=
  ["ENETUNREACH", "ENOTFOUND", "ECONNREFUSED", "ETIMEDOUT", "EAI_AGAIN"]

/-- Case-insensitive test of the network-error regex against an error
message (upper-casing the message models the `/i` flag for the ASCII
code words being searched). -/
def isNetworkErrorMsg (msg : String) : Bool :=
  networkErrorCodes.any (fun c => containsSeq c.toList (msg.toList.map Char.toUpper))

/-- Filename extraction `url.pathname.split('/').pop()` followed by the
truthiness test `if (filename)` (source lines 401-404): the last
slash-separated component of the path, or `none` when it is empty. -/
def extractFilename (pathname : String) : Option String :=
  match (splitOnSlash pathname.toList).getLast? with
  | none => none
  | some [] => none
  | some f => some (String.mk f)

/-- Result of the catch branch: a 302 redirect pointing the client at the
given local-fallback location, a 502 error, or a 500 error. -/
inductive ProxyCatchResult where
  | redirectLocal (location : String)
  | badGateway
  | internalError
deriving DecidableEq, Repr

/-- The catch branch of `proxyImageKitVideo` (source lines 388-422).
`pathname = none` models the inner `try` failing to re-parse the query URL.
When the error message matches the network-error regex and a non-empty
filename can be extracted, the handler sets
`Location: /api/local-videos/<filename>` and answers 302 - without consulting
the local disk, although the adjacent comment reads "Check if file exists
locally and serve it". Only when no filename is available does the client
get 502; non-network errors get 500. -/
def proxyCatchHandler (errMsg : String) (pathname : Option String) : ProxyCatchResult :=
  if isNetworkErrorMsg errMsg then
    match pathname with
    | some p =>
      match extractFilename p with
      | some f => ProxyCatchResult.redirectLocal ("/api/local-videos/" ++ f)
      | none => ProxyCatchResult.badGateway
    | none => ProxyCatchResult.badGateway
  else ProxyCatchResult.internalError

/-! ## GET /local-videos/:filename - path confinement check (part_008 lines 109-126)

The handler computes `path.join(process.cwd(), 'uploads', 'videos')`,
then `path.join(localStorageDir, filename)` and rejects with 403 when
`!filePath.startsWith(localStorageDir)`. The model below implements node's
`path.join` for absolute bases: concatenation followed by segment
normalisation (dropping empty and `.` segments, resolving `..` against the
segment stack). -/

/-- Normalisation stack machine over path segments (absolute paths: a `..`
at the root is dropped). The first argument is the reversed stack of
segments already emitted. -/
def normSegs : List (List Char) → List (List Char) → List (List Char)
  | stack, [] => stack.reverse
  | stack, seg :: rest =>
    if seg = ([] : List Char) then normSegs stack rest
    else if seg = ['.'] then normSegs stack rest
    else if seg = ['.', '.'] then
      match stack with
      | [] => normSegs [] rest
      | _ :: stack2 => normSegs stack2 rest
    else normSegs (seg :: stack) rest

/-- Render an absolute path from its normalised segments. -/
def renderAbs : List (List Char) → List Char
  | [] => ['/']
  | segs => segs.foldl (fun acc s => acc ++ '/' :: s) []

/-- Node `path.join(a, b)` for an absolute `a`: concatenate with a separator
and normalise. -/
def joinPath (a b : String) : String :=
  String.mk (renderAbs (normSegs [] (splitOnSlash (a.toList ++ '/' :: b.toList))))

/-- `path.join(process.cwd(), 'uploads', 'videos')` (source line 112). -/
def localStorageDir (cwd : String) : String :=
  joinPath (joinPath cwd "uploads") "videos"

/-- `path.join(localStorageDir, filename)` (source line 113): the resolved
path the handler will open. -/
def requestedFilePath (cwd filename : String) : String :=
  joinPath (localStorageDir cwd) filename

/-- The handler's security check (source line 116):
`filePath.startsWith(localStorageDir)` as a plain string-prefix test. -/
def securityCheckPasses (cwd filename : String) : Bool :=
  leadsWith (localStorageDir cwd).toList (requestedFilePath cwd filename).toList

/-- Specification-side confinement predicate: the resolved path lies strictly
inside the storage root, i.e. extends the root by a path separator. -/
def strictlyInsideRoot (root p : String) : Bool :=
  leadsWith (root.toList ++ ['/']) p.toList

/-! ## SimpleQueue (src/src/services/queue.service.ts)

The queue holds an array of jobs. `add` appends a job with defaults applied
through JavaScript `||` (so a falsy `0` is replaced) and re-sorts the array
with the stable comparator `(a, b) => a.priority - b.priority`; the worker
loop repeatedly takes the first `pending` job in array order, marks it
`processing`, increments `attempts`, runs the handler (here abstracted over
`processJob`'s dispatch on `job.type`) and writes the outcome back; after
the loop, terminal jobs beyond the most recent 100 are discarded. `id` and
`createdAt` are modelled as logical sequence numbers. -/

/-- Status enumeration of a queue job. -/
inductive JobStatus where
  | pending
  | processing
  | completed
  | failed
deriving DecidableEq, Repr

/-- A queue job (the `data` payload is untyped in the source and irrelevant
to scheduling, so it is omitted; `processedAt` is only informational and is
likewise omitted). -/
structure Job where
  id : Nat
  jobType : String
  priority : Int
  attempts : Int
  maxAttempts : Int
  createdAt : Nat
  status : JobStatus
  error : Option String
deriving DecidableEq, Repr

/-- JavaScript `options.x || d` for a numeric option: absent or `0` (falsy)
yields the default. -/
def jsOrDefault (v : Option Int) (d : Int) : Int :=
  match v with
  | none => d
  | some x => if x = 0 then d else x

/-- The job literal built by `SimpleQueue.add` (source lines 30-39):
`priority: options.priority || 5`, `attempts: 0`,
`maxAttempts: options.maxAttempts || 3`, `status: 'pending'`. -/
def mkJob (id : Nat) (jobType : String) (priority maxAttempts : Option Int)
    (createdAt : Nat) : Job :=
  { id := id
  , jobType := jobType
  , priority := jsOrDefault priority 5
  , attempts := 0
  , maxAttempts := jsOrDefault maxAttempts 3
  , createdAt := createdAt
  , status := JobStatus.pending
  , error := none }

/-- Stable insertion of a job into a priority-ascending list: the new job
goes after every job of priority less than or equal to its own. -/
def insLE (j : Job) : List Job → List Job
  | [] => [j]
  | k :: ks => if j.priority < k.priority then j :: k :: ks else k :: insLE j ks

/-- Stable sort by ascending priority (insertion sort processing elements in
array order, so equal-priority jobs keep their relative order), modelling
`jobs.sort((a, b) => a.priority - b.priority)` - stable per ECMAScript. -/
def jsSortJobs (l : List Job) : List Job :=
  l.foldl (fun acc j => insLE j acc) []

/-- `SimpleQueue.add`'s effect on the job array (source lines 41-42):
push, then stable sort by priority. -/
def addJob (js : List Job) (j : Job) : List Job :=
  jsSortJobs (js ++ [j])

/-- Outcome of one handler invocation (`processJob` resolving or throwing). -/
inductive HandlerResult where
  | ok
  | fail (msg : String)
deriving DecidableEq, Repr

/-- One worker-loop iteration on the selected job (source lines 61-79):
set `processing`, increment `attempts`, invoke the handler; on success the
status becomes `completed`; on failure the error message is recorded and the
status becomes `failed` when `attempts >= maxAttempts`, else back to
`pending` (attempts are never reset). -/
def runJob (handler : Job → HandlerResult) (j : Job) : Job :=
  match handler { j with status := JobStatus.processing, attempts := j.attempts + 1 } with
  | HandlerResult.ok =>
    { j with status := JobStatus.completed, attempts := j.attempts + 1 }
  | HandlerResult.fail m =>
    if j.attempts + 1 ≥ j.maxAttempts then
      { j with status := JobStatus.failed, attempts := j.attempts + 1, error := some m }
    else
      { j with status := JobStatus.pending, attempts := j.attempts + 1, error := some m }

/-- One iteration of the worker loop: find the first `pending` job in array
order (`this.jobs.find(j => j.status === 'pending')`), process it in place;
`none` when no pending job remains (the loop's exit condition). -/
def stepQueue (handler : Job → HandlerResult) : List Job → Option (List Job)
  | [] => none
  | j :: js =>
    if j.status = JobStatus.pending then some (runJob handler j :: js)
    else (stepQueue handler js).map (fun l => j :: l)

/-- The job the worker loop selects next
(`this.jobs.find(j => j.status === 'pending')`). -/
def firstPending : List Job → Option Job
  | [] => none
  | j :: js => if j.status = JobStatus.pending then some j else firstPending js

/-- The worker `while` loop, fuelled (each real iteration consumes one unit;
the loop exits when no pending job remains). -/
def runLoop (handler : Job → HandlerResult) : Nat → List Job → List Job
  | 0, js => js
  | n + 1, js =>
    match stepQueue handler js with
    | none => js
    | some js2 => runLoop handler n js2

/-- Terminal-status test (`status === 'completed' || status === 'failed'`). -/
def isTerminal (j : Job) : Bool :=
  match j.status with
  | JobStatus.completed => true
  | JobStatus.failed => true
  | _ => false

/-- JavaScript `slice(-n)`: the last `n` elements. -/
def lastN (n : Nat) (l : List Job) : List Job :=
  l.drop (l.length - n)

/-- Retention cleanup after the loop (source lines 83-89): keep every
non-terminal job, and of the terminal jobs only the last 100 in array
order. -/
def cleanup (js : List Job) : List Job :=
  js.filter (fun j => !(isTerminal j)) ++ lastN 100 (js.filter (fun j => isTerminal j))

/-- `SimpleQueue.processJobs`: the fuelled worker loop followed by the
retention cleanup. -/
def processJobs (handler : Job → HandlerResult) (fuel : Nat) (js : List Job) : List Job :=
  cleanup (runLoop handler fuel js)

/-- Observation of a job list used in concrete scenarios: status, attempt
counter and recorded error of each job. -/
def jobStats (js : List Job) : List (JobStatus × Int × Option String) :=
  js.map (fun j => (j.status, j.attempts, j.error))

/-- A handler that always succeeds. -/
def okHandler : Job → HandlerResult := fun _ => HandlerResult.ok

/-- A handler that always fails. -/
def alwaysFailHandler : Job → HandlerResult := fun _ => HandlerResult.fail "boom"

/-- A handler that fails on the first invocation (the job then carries
`attempts = 1`) and succeeds afterwards. -/
def failOnceHandler : Job → HandlerResult :=
  fun j => if j.attempts = 1 then HandlerResult.fail "first failure" else HandlerResult.ok

/-- Scheduling order: strictly smaller priority, or equal priority and
creation no later. The worker must always pick a job minimal in this
order among the pending ones. -/
def Rjob (a b : Job) : Prop :=
  a.priority < b.priority ∨ (a.priority = b.priority ∧ a.createdAt ≤ b.createdAt)

instance : DecidableRel Rjob := fun a b =>
  decidable_of_iff
    (a.priority < b.priority ∨ (a.priority = b.priority ∧ a.createdAt ≤ b.createdAt))
    Iff.rfl

/-- Invariant of the job array: pairwise ordered by `Rjob` (ascending
priority; equal priorities ordered by creation). -/
def JobsInv (js : List Job) : Prop := List.Pairwise Rjob js

instance (js : List Job) : Decidable (JobsInv js) :=
  decidable_of_iff (List.Pairwise Rjob js) Iff.rfl

/-- Comparator order used by the source's sort: ascending priority. -/
def Rp (a b : Job) : Prop := a.priority ≤ b.priority

/-- Demo jobs for the priority scenarios: `A(priority=1)` and
`B(priority=5)` in both insertion orders. -/
def demoJobA : Job := mkJob 1 "process-video" (some 1) none 1

/-- Job `B` of the demo pair, added first in the `BA` order. -/
def demoJobB : Job := mkJob 0 "process-video" (some 5) none 0

/-- Queue where `B(priority=5)` was added before `A(priority=1)`. -/
def demoQueueBA : List Job := addJob (addJob [] demoJobB) demoJobA

/-- Queue where `A(priority=1)` was added before `B(priority=5)`. -/
def demoQueueAB : List Job :=
  addJob (addJob [] (mkJob 0 "process-video" (some 1) none 0))
    (mkJob 1 "process-video" (some 5) none 1)

/-- An old completed priority-5 job (creation time `i`), for the retention
scenario. -/
def mkTerm (i : Nat) : Job :=
  { id := i, jobType := "process-video", priority := 5, attempts := 1
  , maxAttempts := 3, createdAt := i, status := JobStatus.completed, error := none }

/-- A completed priority-1 job created after all the `mkTerm` jobs - the
most recent terminal job of `c9Queue`. -/
def newestTerm : Job :=
  { id := 1000, jobType := "process-video", priority := 1, attempts := 1
  , maxAttempts := 3, createdAt := 1000, status := JobStatus.completed, error := none }

/-- A priority-sorted queue of 101 terminal jobs: the newest job has
priority 1 and therefore sorts before the 100 older priority-5 jobs. -/
def c9Queue : List Job := newestTerm :: (List.range 100).map mkTerm

/-! ## Theorems for the streaming proxy claims -/

/-- Claim C2: for every parsed start at or beyond the probed content length,
`streamVideo` answers 416 with `Content-Range: bytes */<contentLength>`; the
`notSatisfiable` outcome carries no upstream request and the source returns
`res.status(416).end()` with an empty body before any upstream GET is built. -/
theorem streamVideo_range_not_satisfiable (s contentLength : Int) (endReq : Option Int)
    (h : s ≥ contentLength) :
    streamVideoRangeBranch (some s) endReq contentLength
      = RangeBranch.notSatisfiable ("bytes */" ++ toString contentLength) := by
  simp only [streamVideoRangeBranch, if_pos h]

/-- Witness for C2: a request starting at byte 2000 of a 1000-byte resource
is answered 416 with `Content-Range: bytes */1000`. -/
theorem streamVideo_range_not_satisfiable_witness :
    streamVideoRangeBranch (some 2000) none 1000
      = RangeBranch.notSatisfiable "bytes */1000" :=
  (streamVideo_range_not_satisfiable 2000 1000 none (by decide)).trans (by decide)

/-- Claim C1, counterexample: the range branch does not relay the upstream
`Accept-Ranges` header - it writes the constant `'bytes'` (source line 214).
An upstream response carrying `Accept-Ranges: none` is relayed to the client
as `Accept-Ranges: bytes`. -/
theorem streamVideo_acceptRanges_not_relayed :
    (relayRangeResponse
        { statusCode := 206, contentType := some "video/mp4"
        , contentLength := some "100", contentRange := some "bytes 0-99/1000"
        , acceptRanges := some "none" } "video/mp4").acceptRanges = "bytes"
    ∧ (UpstreamHead.acceptRanges
        { statusCode := 206, contentType := some "video/mp4"
        , contentLength := some "100", contentRange := some "bytes 0-99/1000"
        , acceptRanges := some "none" }) = some "none"
    ∧ ("bytes" : String) ≠ "none" := by
  refine ⟨rfl, rfl, ?_⟩
  decide

/-- Claim C1 (amended): for every parsed start with `0 ≤ start < contentLength`
the effective end is `min(requested end, contentLength - 1)`, defaulting to
`min(start + chunkSize - 1, contentLength - 1)` with `chunkSize = 1000000`
when the end is omitted; the upstream GET carries
`Range: bytes=<start>-<end>` for that clamped range; the client response
relays the upstream status (defaulting to 206 when absent), its
`Content-Type` when present (falling back to the probed type), and its
`Content-Length` and `Content-Range` verbatim, while `Accept-Ranges` is set
to the constant `bytes` rather than relayed. -/
theorem streamVideo_range_clamping (s : Int) (endReq : Option Int) (contentLength : Int)
    (up : UpstreamHead) (probedType : String)
    (_h0 : 0 ≤ s) (h1 : s < contentLength) :
    streamVideoRangeBranch (some s) endReq contentLength
      = RangeBranch.upstreamGet
          ("bytes=" ++ toString s ++ "-" ++
            toString (match endReq with
              | some e => min e (contentLength - 1)
              | none => min (s + chunkSize - 1) (contentLength - 1)))
    ∧ (up.statusCode ≠ 0 → (relayRangeResponse up probedType).status = up.statusCode)
    ∧ (relayRangeResponse up probedType).contentRange = up.contentRange
    ∧ (relayRangeResponse up probedType).contentLength = up.contentLength
    ∧ (∀ t, up.contentType = some t → (relayRangeResponse up probedType).contentType = t)
    ∧ (relayRangeResponse up probedType).acceptRanges = "bytes" := by
  refine ⟨?_, ?_, rfl, rfl, ?_, rfl⟩
  · simp only [streamVideoRangeBranch, if_neg (not_le.mpr h1), effEndReq]
    cases endReq with
    | none => rw [min_assoc, min_self]
    | some e => rfl
  · intro hne
    simp [relayRangeResponse, hne]
  · intro t ht
    simp [relayRangeResponse, ht]

/-- Witness for C1: byte range `0-99` of a 1000-byte resource is forwarded
upstream as `Range: bytes=0-99`. -/
theorem streamVideo_range_clamping_witness :
    streamVideoRangeBranch (some 0) (some 99) 1000 = RangeBranch.upstreamGet "bytes=0-99" :=
  ((streamVideo_range_clamping 0 (some 99) 1000
      { statusCode := 206, contentType := some "video/mp4"
      , contentLength := some "100", contentRange := some "bytes 0-99/1000"
      , acceptRanges := some "bytes" } "video/mp4"
      (by decide) (by decide)).1).trans (by decide)

/-- Claim C3, counterexample: with the default budget of 5 redirects, an
origin issuing an endless chain of 302 responses (six are consumed: the
initial request plus five follows) does not fail - the sixth 302 response is
resolved and `proxyImageKitVideo` relays status 302 to the client, not 502. -/
theorem redirect_budget_counterexample :
    (fetchFollow origin302 HttpMethod.GET none "https://ik.imagekit.io/start.mp4" 5).statusCode
      = 302
    ∧ clientStatusAfterFetch
        (fetchFollow origin302 HttpMethod.GET none "https://ik.imagekit.io/start.mp4" 5) = 302
    ∧ clientStatusAfterFetch
        (fetchFollow origin302 HttpMethod.GET none "https://ik.imagekit.io/start.mp4" 5) ≠ 502 := by
  decide

/-- Claim C3 (amended): when every upstream response is a 302 with a
`Location` header, `fetchUpstream` exhausts its budget and resolves with the
raw 302 response; `proxyImageKitVideo` then relays HTTP status 302 (with an
error body) to the client. No `TooManyRedirects` failure exists and the
client never sees 502 on this path. -/
theorem redirect_budget_relays_raw_status (origin : UpstreamReq → RedirectResp)
    (hall : ∀ r, (origin r).statusCode = 302 ∧ (origin r).location.isSome = true) :
    ∀ (n : Nat) (method : HttpMethod) (range : Option String) (url : String),
      (fetchFollow origin method range url n).statusCode = 302
      ∧ clientStatusAfterFetch (fetchFollow origin method range url n) = 302 := by
  intro n method range
  induction n with
  | zero =>
    intro url
    refine ⟨(hall _).1, ?_⟩
    simp [clientStatusAfterFetch, fetchFollow, (hall _).1]
  | succ n ih =>
    intro url
    obtain ⟨h302, hsome⟩ := hall { url := url, method := method, range := range }
    obtain ⟨loc, hloc⟩ := Option.isSome_iff_exists.mp hsome
    simpa [fetchFollow, hloc, h302, isRedirectCode] using ih loc

/-- Witness for C3 (amended): the always-302 origin with budget 5 yields
client status 302. -/
theorem redirect_budget_relays_raw_status_witness :
    clientStatusAfterFetch
      (fetchFollow origin302 HttpMethod.GET none "https://ik.imagekit.io/start.mp4" 5) = 302 :=
  (redirect_budget_relays_raw_status origin302 (fun _ => ⟨rfl, rfl⟩) 5
    HttpMethod.GET none "https://ik.imagekit.io/start.mp4").2

/-- Claim C4, counterexample: a HEAD request with `Range: bytes=0-99`
redirected by a 303 reaches the redirect target still as a HEAD with the
`Range` header attached. `originProbe` answers 206 at the target exactly
when the arriving request is not a bare GET; the chain resolves with 206,
whereas the bare GET the claim predicts would have been answered 200 - so
the follow-up request did not use method GET without `Range`. -/
theorem redirect_303_rewrite_unused_counterexample :
    (fetchFollow originProbe HttpMethod.HEAD (some "bytes=0-99")
        "https://ik.imagekit.io/a.mp4" 5).statusCode = 206
    ∧ (originProbe ⟨"https://ik.imagekit.io/b.mp4", HttpMethod.GET, none⟩).statusCode
        = 200 := by
  decide

/-- Claim C4 (amended): on a 303 response with a `Location` header and
remaining budget, the source computes `nextMethod = 'GET'` and headers with
`Range` deleted (lines 333-335), but these locals are dead: the follow-up
request to the redirect target is issued with the original method and the
original `Range` header - only the URL changes. -/
theorem redirect_follow_keeps_method_and_range (origin : UpstreamReq → RedirectResp)
    (method : HttpMethod) (range : Option String) (url loc : String) (n : Nat)
    (h1 : (origin { url := url, method := method, range := range }).statusCode = 303)
    (h2 : (origin { url := url, method := method, range := range }).location = some loc) :
    (nextRequest { url := url, method := method, range := range } 303 loc).method
        = HttpMethod.GET
    ∧ (nextRequest { url := url, method := method, range := range } 303 loc).range = none
    ∧ fetchFollow origin method range url (n + 1) = fetchFollow origin method range loc n := by
  refine ⟨by simp [nextRequest], by simp [nextRequest], ?_⟩
  simp only [fetchFollow, h2, h1, isRedirectCode]
  norm_num

/-- Witness for C4 (amended): the probing origin's 303 is followed with the
original HEAD method and `Range` header, only the URL replaced. -/
theorem redirect_follow_keeps_method_and_range_witness :
    fetchFollow originProbe HttpMethod.HEAD (some "bytes=0-99")
        "https://ik.imagekit.io/a.mp4" 5
      = fetchFollow originProbe HttpMethod.HEAD (some "bytes=0-99")
          "https://ik.imagekit.io/b.mp4" 4 :=
  (redirect_follow_keeps_method_and_range originProbe HttpMethod.HEAD (some "bytes=0-99")
    "https://ik.imagekit.io/a.mp4" "https://ik.imagekit.io/b.mp4" 4
    (by decide) (by decide)).2.2

/-- Claim C5 (code bug): after a transient network failure
(`ENOTFOUND`), with no check whatsoever of the local disk, the catch branch
of `proxyImageKitVideo` answers 302 with
`Location: /api/local-videos/<filename>` whenever a filename can be
extracted from the requested URL - the decision takes no input describing
whether a fallback copy exists, so the redirect is produced even when it
does not. -/
theorem proxy_fallback_redirect_without_existence_check :
    proxyCatchHandler "getaddrinfo ENOTFOUND ik.imagekit.io" (some "/videos/missing.mp4")
      = ProxyCatchResult.redirectLocal "/api/local-videos/missing.mp4" := by
  decide

/-- Claim C6 (code bug): the filename `../videos-other/e.mp4` resolves to
`/app/uploads/videos-other/e.mp4`, which escapes the storage root
`/app/uploads/videos` (it is not strictly inside it), yet the handler's
`startsWith` check accepts it because the sibling directory shares the root
as a string prefix - so the handler proceeds to open a file outside the
root instead of answering 403. -/
theorem local_videos_prefix_check_bypass :
    securityCheckPasses "/app" "../videos-other/e.mp4" = true
    ∧ requestedFilePath "/app" "../videos-other/e.mp4" = "/app/uploads/videos-other/e.mp4"
    ∧ strictlyInsideRoot (localStorageDir "/app")
        (requestedFilePath "/app" "../videos-other/e.mp4") = false := by
  refine ⟨by decide, by decide, by decide⟩

/-! ## Supporting lemmas for the queue model -/

/-- Membership in a stable insertion. -/
theorem mem_insLE (m j : Job) : ∀ (l : List Job), (m ∈ insLE j l ↔ m = j ∨ m ∈ l)
  | [] => by simp [insLE]
  | k :: ks => by
    by_cases h : j.priority < k.priority
    · simp only [insLE, if_pos h, List.mem_cons]
    · simp only [insLE, if_neg h, List.mem_cons, mem_insLE m j ks]
      tauto

/-- Inserting a job created later than all current ones preserves the
scheduling invariant. -/
theorem insLE_pairwise (j : Job) : ∀ (l : List Job), List.Pairwise Rjob l →
    (∀ k ∈ l, k.createdAt < j.createdAt) → List.Pairwise Rjob (insLE j l)
  | [], _, _ => by simp [insLE]
  | k :: ks, hp, hc => by
    obtain ⟨hk, hks⟩ := List.pairwise_cons.mp hp
    by_cases h : j.priority < k.priority
    · simp only [insLE, if_pos h]
      refine List.pairwise_cons.mpr ⟨?_, hp⟩
      intro m hm
      rcases List.mem_cons.mp hm with rfl | hm2
      · exact Or.inl h
      · have h4 : k.priority < m.priority
            ∨ (k.priority = m.priority ∧ k.createdAt ≤ m.createdAt) := hk m hm2
        rcases h4 with h2 | ⟨h2, _⟩
        · exact Or.inl (lt_trans h h2)
        · exact Or.inl (h2 ▸ h)
    · simp only [insLE, if_neg h]
      refine List.pairwise_cons.mpr
        ⟨?_, insLE_pairwise j ks hks (fun m hm => hc m (List.mem_cons_of_mem k hm))⟩
      intro m hm
      rcases (mem_insLE m j ks).mp hm with rfl | hm2
      · rcases lt_or_eq_of_le (not_lt.mp h) with h2 | h2
        · exact Or.inl h2
        · exact Or.inr ⟨h2, le_of_lt (hc k (List.mem_cons_self k ks))⟩
      · exact hk m hm2

/-- Inserting a job whose priority is at least every current priority
appends it at the end. -/
theorem insLE_append (j : Job) : ∀ (l : List Job),
    (∀ k ∈ l, ¬ j.priority < k.priority) → insLE j l = l ++ [j]
  | [], _ => rfl
  | k :: ks, h => by
    simp only [insLE, if_neg (h k (List.mem_cons_self k ks))]
    rw [insLE_append j ks (fun m hm => h m (List.mem_cons_of_mem k hm))]
    rfl

/-- Folding stable insertions over a sorted list extends the accumulator. -/
theorem foldl_insLE_sorted : ∀ (l acc : List Job),
    List.Pairwise Rp acc →
    List.Pairwise Rp l →
    (∀ a ∈ acc, ∀ b ∈ l, a.priority ≤ b.priority) →
    List.foldl (fun a j => insLE j a) acc l = acc ++ l
  | [], acc, _, _, _ => by simp
  | x :: xs, acc, hacc, hl, hcross => by
    obtain ⟨hx, hxs⟩ := List.pairwise_cons.mp hl
    have hins : insLE x acc = acc ++ [x] :=
      insLE_append x acc (fun k hk => not_lt.mpr (hcross k hk x (List.mem_cons_self x xs)))
    have hacc2 : List.Pairwise Rp (acc ++ [x]) := by
      rw [List.pairwise_append]
      refine ⟨hacc, by simp, ?_⟩
      intro a ha b hb
      have hb2 : b = x := by simpa using hb
      rw [hb2]
      exact hcross a ha x (List.mem_cons_self x xs)
    have hcross2 : ∀ a ∈ acc ++ [x], ∀ b ∈ xs, a.priority ≤ b.priority := by
      intro a ha b hb
      rcases List.mem_append.mp ha with ha2 | ha2
      · exact hcross a ha2 b (List.mem_cons_of_mem x hb)
      · have ha3 : a = x := by simpa using ha2
        rw [ha3]
        exact hx b hb
    calc List.foldl (fun a j => insLE j a) acc (x :: xs)
        = List.foldl (fun a j => insLE j a) (insLE x acc) xs := rfl
      _ = List.foldl (fun a j => insLE j a) (acc ++ [x]) xs := by rw [hins]
      _ = (acc ++ [x]) ++ xs := foldl_insLE_sorted xs (acc ++ [x]) hacc2 hxs hcross2
      _ = acc ++ x :: xs := by simp

/-- A list already sorted by priority is unchanged by the stable sort. -/
theorem jsSortJobs_sorted_id (js : List Job) (h : List.Pairwise Rp js) :
    jsSortJobs js = js := by
  have h2 := foldl_insLE_sorted js [] List.Pairwise.nil h (by intro a ha; simp at ha)
  simpa [jsSortJobs] using h2

/-- Sorting after a push is insertion into the sorted part. -/
theorem jsSortJobs_append_singleton (l : List Job) (j : Job) :
    jsSortJobs (l ++ [j]) = insLE j (jsSortJobs l) := by
  simp [jsSortJobs, List.foldl_append]

/-- The scheduling order implies the comparator order. -/
theorem Rjob_Rp {a b : Job} (h : Rjob a b) : Rp a b := by
  rcases h with h | ⟨h, _⟩
  · exact le_of_lt h
  · exact le_of_eq h

/-- The scheduling invariant implies comparator sortedness. -/
theorem JobsInv_Rp {js : List Job} (h : JobsInv js) : List.Pairwise Rp js :=
  List.Pairwise.imp (fun hab => Rjob_Rp hab) h

/-- On a sorted list, `add`'s push-and-stable-sort is an ordered insertion. -/
theorem addJob_eq_insLE (js : List Job) (j : Job) (h : List.Pairwise Rp js) :
    addJob js j = insLE j js := by
  unfold addJob
  rw [jsSortJobs_append_singleton, jsSortJobs_sorted_id js h]

/-- `add` preserves the scheduling invariant when the new job is the newest. -/
theorem addJob_inv (js : List Job) (j : Job) (h : JobsInv js)
    (hfresh : ∀ k ∈ js, k.createdAt < j.createdAt) : JobsInv (addJob js j) := by
  have h2 : List.Pairwise Rjob (addJob js j) := by
    rw [addJob_eq_insLE js j (JobsInv_Rp h)]
    exact insLE_pairwise j js h hfresh
  exact h2

/-- Membership through the insertion fold. -/
theorem mem_foldl_insLE (m : Job) : ∀ (l acc : List Job),
    (m ∈ List.foldl (fun a j => insLE j a) acc l ↔ m ∈ acc ∨ m ∈ l)
  | [], acc => by simp
  | x :: xs, acc => by
    rw [show List.foldl (fun a j => insLE j a) acc (x :: xs)
        = List.foldl (fun a j => insLE j a) (insLE x acc) xs from rfl]
    rw [mem_foldl_insLE m xs (insLE x acc)]
    simp only [mem_insLE, List.mem_cons]
    tauto

/-- The stable sort is a permutation as far as membership is concerned. -/
theorem mem_jsSortJobs (m : Job) (l : List Job) : m ∈ jsSortJobs l ↔ m ∈ l := by
  rw [show jsSortJobs l = List.foldl (fun a j => insLE j a) [] l from rfl,
    mem_foldl_insLE m l []]
  simp

/-- Membership after `add`. -/
theorem mem_addJob (m : Job) (js : List Job) (j : Job) :
    m ∈ addJob js j ↔ m ∈ js ∨ m = j := by
  unfold addJob
  rw [mem_jsSortJobs]
  simp

/-- A successful worker step splits the array at the first pending job and
replaces exactly that job by its processed version. -/
theorem stepQueue_shape (hnd : Job → HandlerResult) : ∀ (js js' : List Job),
    stepQueue hnd js = some js' →
    ∃ pre j post, js = pre ++ j :: post ∧ js' = pre ++ runJob hnd j :: post
      ∧ j.status = JobStatus.pending ∧ ∀ p ∈ pre, p.status ≠ JobStatus.pending
  | [], js', hstep => by simp [stepQueue] at hstep
  | a :: l, js', hstep => by
    by_cases hp : a.status = JobStatus.pending
    · have h2 : runJob hnd a :: l = js' := by simpa [stepQueue, hp] using hstep
      refine ⟨[], a, l, rfl, ?_, hp, by simp⟩
      rw [← h2]
      rfl
    · have hstep2 : ∃ l2, stepQueue hnd l = some l2 ∧ a :: l2 = js' := by
        simpa [stepQueue, hp, Option.map_eq_some'] using hstep
      obtain ⟨l2, hl2, rfl⟩ := hstep2
      obtain ⟨pre, p0, post, rfl, rfl, hpend, hpre⟩ := stepQueue_shape hnd l l2 hl2
      refine ⟨a :: pre, p0, post, by simp, by simp, hpend, ?_⟩
      intro p hp2
      rcases List.mem_cons.mp hp2 with rfl | hmem
      · exact hp
      · exact hpre p hmem

/-- Processing a job changes neither its priority, creation time,
retry budget nor id. -/
theorem runJob_fields (hnd : Job → HandlerResult) (j : Job) :
    (runJob hnd j).priority = j.priority ∧ (runJob hnd j).createdAt = j.createdAt
      ∧ (runJob hnd j).maxAttempts = j.maxAttempts ∧ (runJob hnd j).id = j.id := by
  cases hr : hnd { j with status := JobStatus.processing, attempts := j.attempts + 1 } with
  | ok => simp [runJob, hr]
  | fail m =>
    by_cases hc : j.attempts + 1 ≥ j.maxAttempts
    · simp [runJob, hr, hc]
    · simp [runJob, hr, hc]

/-- Each processing step increments `attempts` by exactly one, whatever the
handler outcome - attempts are never reset. -/
theorem runJob_attempts (hnd : Job → HandlerResult) (j : Job) :
    (runJob hnd j).attempts = j.attempts + 1 := by
  cases hr : hnd { j with status := JobStatus.processing, attempts := j.attempts + 1 } with
  | ok => simp [runJob, hr]
  | fail m =>
    by_cases hc : j.attempts + 1 ≥ j.maxAttempts
    · simp [runJob, hr, hc]
    · simp [runJob, hr, hc]

/-- A worker step preserves the scheduling invariant. -/
theorem stepQueue_inv (hnd : Job → HandlerResult) (js js' : List Job)
    (hinv : JobsInv js) (hstep : stepQueue hnd js = some js') : JobsInv js' := by
  obtain ⟨pre, j, post, rfl, rfl, _, _⟩ := stepQueue_shape hnd js js' hstep
  have hf := runJob_fields hnd j
  have hinv2 : List.Pairwise Rjob (pre ++ j :: post) := hinv
  rw [List.pairwise_append] at hinv2
  obtain ⟨hpre, hcons, hcross⟩ := hinv2
  have hgoal : List.Pairwise Rjob (pre ++ runJob hnd j :: post) := by
    rw [List.pairwise_append]
    refine ⟨hpre, ?_, ?_⟩
    · rw [List.pairwise_cons] at hcons ⊢
      refine ⟨?_, hcons.2⟩
      intro y hy
      have h5 : Rjob j y := hcons.1 y hy
      have h6 : j.priority < y.priority ∨ (j.priority = y.priority ∧ j.createdAt ≤ y.createdAt) := h5
      show (runJob hnd j).priority < y.priority
        ∨ ((runJob hnd j).priority = y.priority ∧ (runJob hnd j).createdAt ≤ y.createdAt)
      rw [hf.1, hf.2.1]
      exact h6
    · intro a ha b hb
      rcases List.mem_cons.mp hb with rfl | hb2
      · have h5 : Rjob a j := hcross a ha j (List.mem_cons_self j post)
        have h6 : a.priority < j.priority ∨ (a.priority = j.priority ∧ a.createdAt ≤ j.createdAt) := h5
        show a.priority < (runJob hnd j).priority
          ∨ (a.priority = (runJob hnd j).priority ∧ a.createdAt ≤ (runJob hnd j).createdAt)
        rw [hf.1, hf.2.1]
        exact h6
      · exact hcross a ha b (List.mem_cons_of_mem _ hb2)
  exact hgoal

/-- The first pending job of an invariant-sorted array is minimal in
priority among the pending jobs, and among equal priorities it is the
earliest created. -/
theorem firstPending_min : ∀ (js : List Job) (j : Job), JobsInv js →
    firstPending js = some j → ∀ k ∈ js, k.status = JobStatus.pending →
      j.priority ≤ k.priority ∧ (j.priority = k.priority → j.createdAt ≤ k.createdAt)
  | [], j, _, hfp => by simp [firstPending] at hfp
  | a :: l, j, hinv, hfp => by
    obtain ⟨ha, hl⟩ := List.pairwise_cons.mp hinv
    by_cases hp : a.status = JobStatus.pending
    · have hj : a = j := by simpa [firstPending, hp] using hfp
      subst hj
      intro k hk hkp
      rcases List.mem_cons.mp hk with rfl | hk2
      · exact ⟨le_refl _, fun _ => le_refl _⟩
      · have h4 : a.priority < k.priority
            ∨ (a.priority = k.priority ∧ a.createdAt ≤ k.createdAt) := ha k hk2
        rcases h4 with h2 | ⟨h2, h3⟩
        · exact ⟨le_of_lt h2, fun he => absurd he (ne_of_lt h2)⟩
        · exact ⟨le_of_eq h2, fun _ => h3⟩
    · have hfp2 : firstPending l = some j := by simpa [firstPending, hp] using hfp
      intro k hk hkp
      rcases List.mem_cons.mp hk with rfl | hk2
      · exact absurd hkp hp
      · exact firstPending_min l j hl hfp2 k hk2 hkp

/-- `slice(-n)` keeps the whole list when it has at most `n` elements. -/
theorem lastN_of_le (l : List Job) (n : Nat) (h : l.length ≤ n) : lastN n l = l := by
  unfold lastN
  rw [Nat.sub_eq_zero_of_le h, List.drop_zero]

/-- Cleanup keeps every non-terminal (pending or processing) job. -/
theorem mem_cleanup_of_nonterminal (js : List Job) (j : Job)
    (hj : j ∈ js) (ht : isTerminal j = false) : j ∈ cleanup js := by
  unfold cleanup
  apply List.mem_append_left
  rw [List.mem_filter]
  exact ⟨hj, by simp [ht]⟩

/-- Cleanup introduces no job that was not already in the queue. -/
theorem cleanup_subset (js : List Job) (j : Job) (hj : j ∈ cleanup js) : j ∈ js := by
  unfold cleanup at hj
  rcases List.mem_append.mp hj with h | h
  · exact (List.mem_filter.mp h).1
  · have h2 : j ∈ js.filter (fun k => isTerminal k) := by
      unfold lastN at h
      exact (List.drop_sublist _ _).subset h
    exact (List.mem_filter.mp h2).1

/-- A job removed by cleanup is terminal, and only removed because more
than 100 terminal jobs were present. -/
theorem cleanup_removes_only_old_terminal (js : List Job) (j : Job)
    (hj : j ∈ js) (hnot : j ∉ cleanup js) :
    isTerminal j = true ∧ 100 < (js.filter (fun k => isTerminal k)).length := by
  have ht : isTerminal j = true := by
    by_contra h
    exact hnot (mem_cleanup_of_nonterminal js j hj (by simpa using h))
  refine ⟨ht, ?_⟩
  by_contra hlen
  push_neg at hlen
  apply hnot
  unfold cleanup
  apply List.mem_append_right
  rw [lastN_of_le _ _ hlen, List.mem_filter]
  exact ⟨hj, ht⟩

/-- A worker step keeps every terminal job untouched. -/
theorem stepQueue_preserves_terminal (hnd : Job → HandlerResult) (js js' : List Job)
    (hstep : stepQueue hnd js = some js') (j : Job) (hj : j ∈ js)
    (ht : isTerminal j = true) : j ∈ js' := by
  obtain ⟨pre, p, post, rfl, rfl, hpend, _⟩ := stepQueue_shape hnd js js' hstep
  rcases List.mem_append.mp hj with h | h
  · exact List.mem_append_left _ h
  · rcases List.mem_cons.mp h with rfl | h2
    · exact absurd ht (by simp [isTerminal, hpend])
    · exact List.mem_append_right _ (List.mem_cons_of_mem _ h2)

/-- Every job after a worker step is either unchanged or the processed
version of a job that was pending - terminal jobs are never rewritten. -/
theorem stepQueue_members (hnd : Job → HandlerResult) (js js' : List Job)
    (hstep : stepQueue hnd js = some js') (j : Job) (hj : j ∈ js') :
    j ∈ js ∨ ∃ p, p ∈ js ∧ p.status = JobStatus.pending ∧ j = runJob hnd p := by
  obtain ⟨pre, p, post, rfl, rfl, hpend, _⟩ := stepQueue_shape hnd js js' hstep
  rcases List.mem_append.mp hj with h | h
  · exact Or.inl (List.mem_append_left _ h)
  · rcases List.mem_cons.mp h with rfl | h2
    · exact Or.inr ⟨p, List.mem_append_right _ (List.mem_cons_self _ _), hpend, rfl⟩
    · exact Or.inl (List.mem_append_right _ (List.mem_cons_of_mem _ h2))

/-- When every job is terminal (the situation at the cleanup point of
`processJobs`: the loop only exits once no pending job remains and no job
stays `processing` across an iteration), cleanup preserves the invariant. -/
theorem cleanup_inv_of_terminal (js : List Job) (hinv : JobsInv js)
    (hall : ∀ j ∈ js, isTerminal j = true) : JobsInv (cleanup js) := by
  have hinv2 : List.Pairwise Rjob js := hinv
  have hgoal : List.Pairwise Rjob (cleanup js) := by
    unfold cleanup
    have hnil : js.filter (fun j => !(isTerminal j)) = [] := by
      rw [List.filter_eq_nil_iff]
      intro a ha
      simp [hall a ha]
    rw [hnil, List.nil_append]
    unfold lastN
    exact List.Pairwise.sublist (List.drop_sublist _ _) (List.Pairwise.filter _ hinv2)
  exact hgoal

/-! ## Theorems for the queue claims -/

/-- Claim C7: the scheduling invariant (ascending priority, FIFO among equal
priorities) holds initially, is preserved by `add` (new jobs carry the
latest creation time), by every worker step and by cleanup at its call
point; under it the worker always starts the pending job with the lowest
priority value, earliest-created among ties; and concretely, jobs
`A(priority=1)` and `B(priority=5)` added in either order have `A` started,
and completed, before `B`. -/
theorem queue_priority_scheduling :
    JobsInv ([] : List Job)
    ∧ (∀ js j, JobsInv js → (∀ k ∈ js, k.createdAt < j.createdAt) → JobsInv (addJob js j))
    ∧ (∀ hnd js js', JobsInv js → stepQueue hnd js = some js' → JobsInv js')
    ∧ (∀ js, JobsInv js → (∀ j ∈ js, isTerminal j = true) → JobsInv (cleanup js))
    ∧ (∀ js j, JobsInv js → firstPending js = some j →
        ∀ k ∈ js, k.status = JobStatus.pending →
          j.priority ≤ k.priority ∧ (j.priority = k.priority → j.createdAt ≤ k.createdAt))
    ∧ (firstPending demoQueueAB).map Job.priority = some 1
    ∧ (firstPending demoQueueBA).map Job.priority = some 1
    ∧ (runLoop okHandler 1 demoQueueBA).map (fun j => (j.priority, j.status))
        = [(1, JobStatus.completed), (5, JobStatus.pending)]
    ∧ (runLoop okHandler 2 demoQueueBA).map (fun j => (j.priority, j.status))
        = [(1, JobStatus.completed), (5, JobStatus.completed)] :=
  ⟨List.Pairwise.nil, addJob_inv, stepQueue_inv, cleanup_inv_of_terminal,
    firstPending_min, by decide, by decide, by decide, by decide⟩

/-- Witness for C7: in the queue where `B(priority=5)` was added before
`A(priority=1)`, the job the worker starts next is `A`, which is no worse
than `B` in the scheduling order. -/
theorem queue_priority_scheduling_witness :
    demoJobA.priority ≤ demoJobB.priority
    ∧ (demoJobA.priority = demoJobB.priority → demoJobA.createdAt ≤ demoJobB.createdAt) :=
  queue_priority_scheduling.2.2.2.2.1 demoQueueBA demoJobA (by decide) (by decide)
    demoJobB (by decide) (by decide)

/-- Claim C8: each handler invocation increments `attempts` by exactly one
and attempts are never reset; a job re-entering `pending` still has
attempts strictly below `maxAttempts`, so the handler runs at most
`maxAttempts` times; concretely, an always-failing handler with
`maxAttempts = 3` yields exactly 3 invocations, final status `failed` and
the last error message recorded, while a fail-once-then-succeed handler
ends `completed` with `attempts = 2`. -/
theorem queue_retry_exhaustion :
    (∀ hnd j, (runJob hnd j).attempts = j.attempts + 1)
    ∧ (∀ hnd (j : Job), j.attempts < j.maxAttempts → (runJob hnd j).attempts ≤ j.maxAttempts)
    ∧ (∀ hnd (j : Job), (runJob hnd j).status = JobStatus.pending →
        (runJob hnd j).attempts < (runJob hnd j).maxAttempts)
    ∧ jobStats (processJobs alwaysFailHandler 5
          (addJob [] (mkJob 0 "process-video" none (some 3) 0)))
        = [(JobStatus.failed, 3, some "boom")]
    ∧ jobStats (processJobs failOnceHandler 5
          (addJob [] (mkJob 1 "process-video" none (some 3) 0)))
        = [(JobStatus.completed, 2, some "first failure")] := by
  refine ⟨runJob_attempts, ?_, ?_, by decide, by decide⟩
  · intro hnd j h
    rw [runJob_attempts]
    omega
  · intro hnd j h
    have hmax := (runJob_fields hnd j).2.2.1
    have hatt := runJob_attempts hnd j
    rw [hatt, hmax]
    by_cases hc : j.attempts + 1 ≥ j.maxAttempts
    · exfalso
      revert h
      cases hr : hnd { j with status := JobStatus.processing, attempts := j.attempts + 1 } with
      | ok => simp [runJob, hr]
      | fail m => simp [runJob, hr, hc]
    · omega

/-- Witness for C8: a first invocation on a fresh job with `maxAttempts = 3`
keeps the attempt counter within the budget. -/
theorem queue_retry_exhaustion_witness :
    (runJob alwaysFailHandler (mkJob 2 "process-video" none (some 3) 0)).attempts
      ≤ (mkJob 2 "process-video" none (some 3) 0).maxAttempts :=
  queue_retry_exhaustion.2.1 alwaysFailHandler
    (mkJob 2 "process-video" none (some 3) 0) (by decide)

set_option maxRecDepth 8000 in
/-- Claim C9, counterexample: the retained terminal window is the last 100
in *array* (priority-sorted) order, not the most recent 100. In a queue of
101 terminal jobs where the single most recently created one has priority 1
and therefore sorts first, `slice(-100)` drops exactly that most recent
terminal job while keeping 100 older ones - refuting "removes only terminal
jobs beyond the most recent 100". -/
theorem cleanup_drops_most_recent_terminal :
    newestTerm ∈ c9Queue
    ∧ isTerminal newestTerm = true
    ∧ (c9Queue.map Job.createdAt).foldr max 0 = newestTerm.createdAt
    ∧ (c9Queue.filter (fun k => isTerminal k)).length = 101
    ∧ newestTerm ∉ cleanup c9Queue := by
  decide

/-- Claim C9 (amended): a worker step keeps every terminal job untouched
(it only rewrites a pending job, so a job never leaves a terminal state),
cleanup keeps every `pending`/`processing` job, removes nothing that was
not in the queue, and removes only terminal jobs and only when more than
100 terminal jobs are present - the 100 kept being the last 100 in array
(priority-sorted) order, not the most recent by creation; `add` never
removes a job. -/
theorem queue_terminal_retention :
    (∀ hnd js js', stepQueue hnd js = some js' →
        ∀ j ∈ js, isTerminal j = true → j ∈ js')
    ∧ (∀ hnd js js', stepQueue hnd js = some js' →
        ∀ j ∈ js', j ∈ js ∨ ∃ p, p ∈ js ∧ p.status = JobStatus.pending ∧ j = runJob hnd p)
    ∧ (∀ js j, j ∈ js → isTerminal j = false → j ∈ cleanup js)
    ∧ (∀ js j, j ∈ cleanup js → j ∈ js)
    ∧ (∀ js j, j ∈ js → j ∉ cleanup js →
        isTerminal j = true ∧ 100 < (js.filter (fun k => isTerminal k)).length)
    ∧ (∀ js j j2, j ∈ js → j ∈ addJob js j2) :=
  ⟨fun hnd js js' hstep j hj ht => stepQueue_preserves_terminal hnd js js' hstep j hj ht,
    fun hnd js js' hstep j hj => stepQueue_members hnd js js' hstep j hj,
    fun js j hj ht => mem_cleanup_of_nonterminal js j hj ht,
    fun js j hj => cleanup_subset js j hj,
    fun js j hj hn => cleanup_removes_only_old_terminal js j hj hn,
    fun js j j2 hj => (mem_addJob j js j2).mpr (Or.inl hj)⟩

/-- Witness for C9: the pending demo job `B` survives cleanup. -/
theorem queue_terminal_retention_witness :
    demoJobB ∈ cleanup demoQueueBA :=
  queue_terminal_retention.2.2.1 demoQueueBA demoJobB (by decide) (by decide)

/-- Claim C10: `add` applies its defaults with a JavaScript falsy check, so
`priority = 0` is silently replaced by the default 5 and `maxAttempts = 0`
by the default 3, while every non-zero argument is kept. -/
theorem add_falsy_default_options :
    (mkJob 0 "process-video" (some 0) (some 7) 0).priority = 5
    ∧ (mkJob 0 "process-video" (some 7) (some 0) 0).maxAttempts = 3
    ∧ ∀ v : Int, v ≠ 0 →
        (mkJob 0 "process-video" (some v) (some v) 0).priority = v
        ∧ (mkJob 0 "process-video" (some v) (some v) 0).maxAttempts = v := by
  refine ⟨by decide, by decide, ?_⟩
  intro v hv
  constructor <;> simp [mkJob, jsOrDefault, hv]

/-- Witness for C10: the non-zero value 9 is kept for both options. -/
theorem add_falsy_default_options_witness :
    (mkJob 0 "process-video" (some 9) (some 9) 0).priority = 9
    ∧ (mkJob 0 "process-video" (some 9) (some 9) 0).maxAttempts = 9 :=
  add_falsy_default_options.2.2 9 (by decide)

end FoodieReel
